import Mathlib

/-!
Verification development for the JSPad code-executor worker
(`src/workers/code-executor.worker.ts`).

The worker runs user script text inside a dedicated worker context.  It
shims `console.log` / `console.error` / `console.warn`, the dialog calls
`alert` / `confirm` / `prompt`, and the timer primitives `setTimeout` /
`setInterval` / `clearTimeout` / `clearInterval`, and it orchestrates one
execution session per `execute` message: a safety timeout, evaluation of the
source as an async function, a 100 ms grace wait, and a 50 ms poll interval
that watches the pending-timer set.  `sendResults` posts one `complete`
message carrying the transcript.

The embedding below is a shallow model of that worker: the transcript is a
`List ConsoleMessage`, the pending-timer set a `Finset ℕ`, and the worker
event loop a step function over an explicit task queue ordered by due time
(single-threaded run-to-completion semantics: a task's synchronous body runs
atomically; timer callbacks fire strictly after the synchronous code that
scheduled them).
-/

namespace JSPad

/-- Wire kind of one output record: `'log' | 'error' | 'warn'`. -/
inductive MsgType
  | log
  | error
  | warn
deriving DecidableEq, Repr

/-- One output record: `interface ConsoleMessage { type; content }`. -/
structure ConsoleMessage where
  type : MsgType
  content : String
deriving DecidableEq, Repr

/-- `const MAX_LOGS = 1000`. -/
def MAX_LOGS : ℕ := 1000

/-- Content of the overflow sentinel record pushed by the `console.log` shim
(`Log limit reached (${MAX_LOGS} lines)...`). -/
def logLimitMsg : String :=
  "⚠️ Log limit reached (" ++ toString MAX_LOGS ++ " lines). Further logs will be ignored."

/-- A JavaScript value as the logging shims observe it.  `prim s` is a
non-object value whose `String(...)` coercion is `s`; `obj json toStr` is an
object whose `JSON.stringify(arg, null, 2)` either succeeds with `json = some j`
or throws (`json = none`, e.g. a circular structure), and whose `String(...)`
coercion is `toStr`; `thenable toStr` is a promise-like object (it has a
callable `then`), with `String(...)` coercion `toStr`. -/
inductive JSArg
  | prim (toStr : String)
  | obj (json : Option String) (toStr : String)
  | thenable (toStr : String)
deriving DecidableEq, Repr

/-- Per-argument stringification done by the `console.log` shim: a thenable
is printed as a pending promise (its settlement callback, which logs again
later, is outside this model — no scenario below settles a promise); another
object is printed via `JSON.stringify` with `String(...)` as the fallback
when stringification throws; anything else via `String(...)`. -/
def stringifyLogArg : JSArg → String
  | .thenable _ => "Promise \x7b <pending> \x7d"
  | .obj json toStr =>
      match json with
      | some j => j
      | none => toStr
  | .prim s => s

/-- Per-argument stringification done by the `console.error` and
`console.warn` shims: always `String(arg)`. -/
def stringifyErrArg : JSArg → String
  | .prim s => s
  | .obj _ toStr => toStr
  | .thenable toStr => toStr

/-- The transcript effect of the `console.log` shim:
if `logs.length >= MAX_LOGS`, push the sentinel exactly when
`logs.length === MAX_LOGS` and drop the call otherwise; else push a `log`
record whose content is the space-joined stringification of the arguments. -/
def consoleLogOp (logs : List ConsoleMessage) (args : List JSArg) : List ConsoleMessage :=
  if MAX_LOGS ≤ logs.length then
    if logs.length = MAX_LOGS then logs ++ [⟨.warn, logLimitMsg⟩] else logs
  else
    logs ++ [⟨.log, String.intercalate " " (args.map stringifyLogArg)⟩]

/-- The transcript effect of the `console.error` shim:
`if (logs.length >= MAX_LOGS + 1) return;` then push an `error` record with
the `String(...)`-joined content. -/
def consoleErrorOp (logs : List ConsoleMessage) (args : List JSArg) : List ConsoleMessage :=
  if MAX_LOGS + 1 ≤ logs.length then logs
  else logs ++ [⟨.error, String.intercalate " " (args.map stringifyErrArg)⟩]

/-- The transcript effect of the `console.warn` shim (same guard as
`console.error`, record kind `warn`). -/
def consoleWarnOp (logs : List ConsoleMessage) (args : List JSArg) : List ConsoleMessage :=
  if MAX_LOGS + 1 ≤ logs.length then logs
  else logs ++ [⟨.warn, String.intercalate " " (args.map stringifyErrArg)⟩]

/-- `alert(message)` shim: logs `[alert] ${String(message)}` and returns
nothing. -/
def alertShim (logs : List ConsoleMessage) (message : String) : List ConsoleMessage :=
  consoleLogOp logs [.prim ("[alert] " ++ message)]

/-- `confirm(message)` shim: logs `[confirm] ${String(message)} (returned true)`
and returns `true`. -/
def confirmShim (logs : List ConsoleMessage) (message : String) :
    List ConsoleMessage × Bool :=
  (consoleLogOp logs [.prim ("[confirm] " ++ message ++ " (returned true)")], true)

/-- `prompt(message, defaultValue)` shim: `const value = defaultValue || ''`,
logs `[prompt] ${String(message)} (returned "${value}")` and returns `value`.
The default, when present, is a string, so `defaultValue || ''` keeps a
non-empty string and turns an absent or empty default into `""`. -/
def promptShim (logs : List ConsoleMessage) (message : String) (dflt : Option String) :
    List ConsoleMessage × String :=
  let value :=
    match dflt with
    | none => ""
    | some v => if v = "" then "" else v
  (consoleLogOp logs
      [.prim ("[prompt] " ++ message ++ " (returned \"" ++ value ++ "\")")],
   value)

/-! ## Event-loop model of one execution session

The worker's `message` handler, on `{type:'execute', code, timeout}`, resets
`logs` and `pendingTimers`, arms `safetyTimeout` with `originalSetTimeout`,
and calls `executeAsync`.  We model the worker's timer table as an explicit
queue of tasks with absolute due times; a step fires the earliest-due task
(single-threaded run to completion, so a user statement list runs atomically
and a zero-delay timer fires only after the registering synchronous code has
finished). -/

/-- One statement of a user script as the shims observe it.  `setTimeoutS` /
`setIntervalS` carry the callback's own statements; `throwS` is a synchronous
`throw` (and, at top level, also stands for rejection of the top-level async
invocation, which the worker catches at the same `await fn()` boundary). -/
inductive Stmt
  | log (args : List JSArg)
  | errorS (args : List JSArg)
  | warnS (args : List JSArg)
  | alertS (message : String)
  | setTimeoutS (body : List Stmt) (delay : ℕ)
  | setIntervalS (body : List Stmt) (delay : ℕ)
  | throwS (message : String)

/-- What a scheduled task in the worker's timer table does when it fires. -/
inductive TaskAct
  | userTimeout (body : List Stmt)
  | userInterval (body : List Stmt) (period : ℕ)
  | safety
  | grace
  | check

/-- A task in the worker's timer table: its handle, absolute due time and
action. -/
structure STask where
  id : ℕ
  due : ℕ
  act : TaskAct

/-- State of the worker during one execution session.  `emitted` collects the
payloads of the `complete` messages posted by `sendResults` (the spec's
RunResults), in order. -/
structure LoopState where
  now : ℕ
  logs : List ConsoleMessage
  pendingTimers : Finset ℕ
  tasks : List STask
  nextId : ℕ
  safetyId : ℕ
  emitted : List (List ConsoleMessage)

/-- `originalClearTimeout(id)` / `originalClearInterval(id)`: drop the task
with that handle from the timer table (handles are unique, so a filter). -/
def removeTask (tasks : List STask) (id : ℕ) : List STask :=
  tasks.filter (fun t => t.id ≠ id)

/-- Effect of one user statement.  Returns the resulting state and, for
`throwS`, the thrown message.  The `setTimeout` shim registers the real timer
and then adds its handle to `pendingTimers`; the `setInterval` shim does the
same with a periodic task. -/
def runStmt (st : Stmt) (s : LoopState) : LoopState × Option String :=
  match st with
  | .log args => ({ s with logs := consoleLogOp s.logs args }, none)
  | .errorS args => ({ s with logs := consoleErrorOp s.logs args }, none)
  | .warnS args => ({ s with logs := consoleWarnOp s.logs args }, none)
  | .alertS m => ({ s with logs := alertShim s.logs m }, none)
  | .setTimeoutS body delay =>
      ({ s with
          tasks := s.tasks ++ [⟨s.nextId, s.now + delay, .userTimeout body⟩],
          pendingTimers := insert s.nextId s.pendingTimers,
          nextId := s.nextId + 1 }, none)
  | .setIntervalS body delay =>
      ({ s with
          tasks := s.tasks ++ [⟨s.nextId, s.now + delay, .userInterval body delay⟩],
          pendingTimers := insert s.nextId s.pendingTimers,
          nextId := s.nextId + 1 }, none)
  | .throwS m => (s, some m)

/-- Run a statement list left to right, stopping at the first throw. -/
def runStmts (stmts : List Stmt) (s : LoopState) : LoopState × Option String :=
  match stmts with
  | [] => (s, none)
  | st :: rest =>
      match runStmt st s with
      | (s', none) => runStmts rest s'
      | (s', some e) => (s', some e)

/-- `sendResults()`: post one `complete` message with the current transcript. -/
def sendResults (s : LoopState) : LoopState :=
  { s with emitted := s.emitted ++ [s.logs] }

/-- Firing of a shimmed `setTimeout` timer: the wrapped callback runs the user
callback inside `try { ... } finally { pendingTimers.delete(id) }`, so the
handle leaves the pending set even when the callback throws (the exception
then propagates to the worker's global scope, uncaught). -/
def fireUserTimeout (id : ℕ) (body : List Stmt) (s : LoopState) :
    LoopState × Option String :=
  match runStmts body s with
  | (s', e) => ({ s' with pendingTimers := s'.pendingTimers.erase id }, e)

/-- Firing of a shimmed `setInterval` tick: the raw user callback runs (no
wrapper, so `pendingTimers` is untouched by the machinery) and the interval
is rescheduled one period later. -/
def fireUserInterval (id : ℕ) (body : List Stmt) (period due : ℕ) (s : LoopState) :
    LoopState × Option String :=
  match runStmts body s with
  | (s', e) =>
      ({ s' with tasks := s'.tasks ++ [⟨id, due + period, .userInterval body period⟩] }, e)

/-- The safety-timeout handler: for each pending handle, clear its real
timer/interval; empty the pending set; `sendResults()`.  It clears neither
the poll interval (not in `pendingTimers`) nor appends any record. -/
def runSafety (s : LoopState) : LoopState :=
  sendResults
    { s with
        tasks := s.tasks.filter (fun t => t.id ∉ s.pendingTimers),
        pendingTimers := ∅ }

/-- The code after the 100 ms grace wait in `executeAsync`: if no timers are
pending, cancel the safety timeout and send results; otherwise start the
50 ms `checkInterval` poll. -/
def runGrace (s : LoopState) : LoopState :=
  if s.pendingTimers = ∅ then
    sendResults { s with tasks := removeTask s.tasks s.safetyId }
  else
    { s with
        tasks := s.tasks ++ [⟨s.nextId, s.now + 50, .check⟩],
        nextId := s.nextId + 1 }

/-- One `checkInterval` tick: if no timers are pending, clear the poll
interval (here: do not reschedule), cancel the safety timeout and send
results; otherwise the interval simply fires again 50 ms later. -/
def runCheck (checkId due : ℕ) (s : LoopState) : LoopState :=
  if s.pendingTimers = ∅ then
    sendResults { s with tasks := removeTask s.tasks s.safetyId }
  else
    { s with tasks := s.tasks ++ [⟨checkId, due + 50, .check⟩] }

/-- Dispatch a fired task to its handler. -/
def runTask (t : STask) (s : LoopState) : LoopState :=
  match t.act with
  | .userTimeout body => (fireUserTimeout t.id body s).1
  | .userInterval body period => (fireUserInterval t.id body period t.due s).1
  | .safety => runSafety s
  | .grace => runGrace s
  | .check => runCheck t.id t.due s

/-- Earliest-due task of the queue (leftmost among ties, matching timer
registration order). -/
def pickMin (tasks : List STask) : Option STask :=
  match tasks with
  | [] => none
  | t :: ts =>
      match pickMin ts with
      | none => some t
      | some u => if t.due ≤ u.due then some t else some u

/-- One event-loop step: fire the earliest-due task, advancing the clock to
its due time. -/
def stepLoop (s : LoopState) : LoopState :=
  match pickMin s.tasks with
  | none => s
  | some t => runTask t { s with now := max s.now t.due, tasks := removeTask s.tasks t.id }

/-- Run the event loop for a bounded number of steps. -/
def runLoop (fuel : ℕ) (s : LoopState) : LoopState :=
  match fuel with
  | 0 => s
  | n + 1 => runLoop n (stepLoop s)

/-- The user source as handed to `new Function`: either the constructor
throws (a syntax error) or the async body is a statement list. -/
inductive Script
  | parseError (message : String)
  | body (stmts : List Stmt)

/-- State right after the `execute` branch resets `logs` and `pendingTimers`
and arms the safety timeout (handle 0) for `timeoutMs`. -/
def initState (timeoutMs : ℕ) : LoopState :=
  { now := 0, logs := [], pendingTimers := ∅,
    tasks := [⟨0, timeoutMs, .safety⟩], nextId := 1, safetyId := 0, emitted := [] }

/-- The synchronous part of handling an `execute` message: arm the safety
timeout, then run `executeAsync` up to its first real suspension.  A syntax
error or a throw from the body lands in the `catch`, which cancels the safety
timeout, pushes one error record directly (`logs.push`, no capacity check)
and sends results; otherwise the 100 ms grace wait is scheduled. -/
def startExecute (script : Script) (timeoutMs : ℕ) : LoopState :=
  let s := initState timeoutMs
  match script with
  | .parseError msg =>
      sendResults
        { s with
            tasks := removeTask s.tasks s.safetyId,
            logs := s.logs ++ [⟨.error, msg⟩] }
  | .body stmts =>
      match runStmts stmts s with
      | (s', none) =>
          { s' with
              tasks := s'.tasks ++ [⟨s'.nextId, s'.now + 100, .grace⟩],
              nextId := s'.nextId + 1 }
      | (s', some msg) =>
          sendResults
            { s' with
                tasks := removeTask s'.tasks s'.safetyId,
                logs := s'.logs ++ [⟨.error, msg⟩] }

/-- The `clearTimeout` shim: `originalClearTimeout(id)` then
`pendingTimers.delete(id)`. -/
def clearTimeoutShim (s : LoopState) (id : ℕ) : LoopState :=
  { s with tasks := removeTask s.tasks id, pendingTimers := s.pendingTimers.erase id }

/-- The `clearInterval` shim: `originalClearInterval(id)` then
`pendingTimers.delete(id)`. -/
def clearIntervalShim (s : LoopState) (id : ℕ) : LoopState :=
  { s with tasks := removeTask s.tasks id, pendingTimers := s.pendingTimers.erase id }

/-! ## Concrete scenarios and iterated-call machinery -/

/-- The record a sub-capacity `console.log` call appends. -/
def mkLogRec (args : List JSArg) : ConsoleMessage :=
  ⟨.log, String.intercalate " " (args.map stringifyLogArg)⟩

/-- `iterLogFrom f i n l`: make `n` successive `console.log` calls on
transcript `l`, call number `i + k` passing arguments `f (i + k)`. -/
def iterLogFrom (f : ℕ → List JSArg) : ℕ → ℕ → List ConsoleMessage → List ConsoleMessage
  | _, 0, l => l
  | i, n + 1, l => iterLogFrom f (i + 1) n (consoleLogOp l (f i))

/-- One call to any of the three logging shims. -/
inductive ConsoleCall
  | logC (args : List JSArg)
  | errorC (args : List JSArg)
  | warnC (args : List JSArg)

/-- Transcript effect of one logging call. -/
def applyCall (l : List ConsoleMessage) : ConsoleCall → List ConsoleMessage
  | .logC args => consoleLogOp l args
  | .errorC args => consoleErrorOp l args
  | .warnC args => consoleWarnOp l args

/-- Transcript effect of a sequence of logging calls, left to right. -/
def applyCalls (l : List ConsoleMessage) (cs : List ConsoleCall) : List ConsoleMessage :=
  cs.foldl applyCall l

/-- Call sequence filling the buffer with `MAX_LOGS` ordinary log records and
then one `console.error` call while the buffer holds exactly `MAX_LOGS`
records. -/
def overflowCalls : List ConsoleCall :=
  List.replicate MAX_LOGS (.logC [.prim "x"]) ++ [.errorC [.prim "y"]]

/-- The transcript `overflowCalls` produces: `MAX_LOGS` log records and an
error record in position `MAX_LOGS + 1`, with no overflow sentinel. -/
def overflowTranscript : List ConsoleMessage :=
  List.replicate MAX_LOGS ⟨.log, "x"⟩ ++ [⟨.error, "y"⟩]

/-- C5 scenario: log `"a"`, schedule a zero-delay timer logging `"b"`, then
synchronously log `"c"`. -/
def scenOrder : Script :=
  .body [Stmt.log [JSArg.prim "a"],
         Stmt.setTimeoutS [Stmt.log [JSArg.prim "b"]] 0,
         Stmt.log [JSArg.prim "c"]]

/-- Scenario driving the session into the poll path: one 10000 ms timer whose
callback does nothing, against a 220 ms safety timeout. -/
def scenPoll : Script := .body [Stmt.setTimeoutS [] 10000]

/-- Like `scenPoll`, with one log record in the transcript before the timer
is registered. -/
def scenPollLog : Script :=
  .body [Stmt.log [JSArg.prim "x"], Stmt.setTimeoutS [] 10000]

/-! ## Helper lemmas -/

theorem consoleLogOp_of_lt (logs : List ConsoleMessage) (args : List JSArg)
    (h : logs.length < MAX_LOGS) :
    consoleLogOp logs args = logs ++ [mkLogRec args] := by
  unfold consoleLogOp mkLogRec
  rw [if_neg (by omega)]

theorem consoleLogOp_of_eq (logs : List ConsoleMessage) (args : List JSArg)
    (h : logs.length = MAX_LOGS) :
    consoleLogOp logs args = logs ++ [⟨.warn, logLimitMsg⟩] := by
  unfold consoleLogOp
  rw [if_pos (by omega), if_pos h]

theorem consoleLogOp_of_gt (logs : List ConsoleMessage) (args : List JSArg)
    (h : MAX_LOGS < logs.length) :
    consoleLogOp logs args = logs := by
  unfold consoleLogOp
  rw [if_pos (by omega), if_neg (by omega)]

theorem consoleErrorOp_of_le (logs : List ConsoleMessage) (args : List JSArg)
    (h : logs.length ≤ MAX_LOGS) :
    consoleErrorOp logs args
      = logs ++ [⟨.error, String.intercalate " " (args.map stringifyErrArg)⟩] := by
  unfold consoleErrorOp
  rw [if_neg (by omega)]

theorem consoleErrorOp_of_gt (logs : List ConsoleMessage) (args : List JSArg)
    (h : MAX_LOGS + 1 ≤ logs.length) :
    consoleErrorOp logs args = logs := by
  unfold consoleErrorOp
  rw [if_pos h]

theorem consoleWarnOp_of_le (logs : List ConsoleMessage) (args : List JSArg)
    (h : logs.length ≤ MAX_LOGS) :
    consoleWarnOp logs args
      = logs ++ [⟨.warn, String.intercalate " " (args.map stringifyErrArg)⟩] := by
  unfold consoleWarnOp
  rw [if_neg (by omega)]

theorem consoleWarnOp_of_gt (logs : List ConsoleMessage) (args : List JSArg)
    (h : MAX_LOGS + 1 ≤ logs.length) :
    consoleWarnOp logs args = logs := by
  unfold consoleWarnOp
  rw [if_pos h]

theorem removeTask_idem (tasks : List STask) (id : ℕ) :
    removeTask (removeTask tasks id) id = removeTask tasks id := by
  unfold removeTask
  induction tasks with
  | nil => rfl
  | cons t ts ih =>
      by_cases h : t.id = id
      · simp [List.filter_cons, h, ih]
      · simp [List.filter_cons, h, ih]

/-! ## Claim theorems -/

/-- C1: the claim says exactly one completion message is emitted per run and
that the safety-timeout path cancels the poll interval.  The code does not:
the safety handler clears only the handles in `pendingTimers`, which never
contains `checkInterval`, so after the safety timeout posts its result the
still-live poll interval observes an empty pending set and posts a second
result.  Concretely, a script that registers one 10000 ms timer under a
220 ms safety timeout emits two `complete` messages (the first at the safety
fire after four loop steps, the second at the next 50 ms poll tick). -/
theorem c1_double_completion :
    (runLoop 4 (startExecute scenPoll 220)).emitted = [[]] ∧
    (runLoop 5 (startExecute scenPoll 220)).emitted = [[], []] ∧
    (runLoop 5 (startExecute scenPoll 220)).tasks = [] := by
  refine ⟨by decide, by decide, rfl⟩

/-- C2 counterexample: the claim says the safety-timeout completion appends
an Error record denoting a timeout.  In the code the safety handler only
clears pending handles and posts the transcript as it stands: for
`scenPollLog` under a 220 ms timeout, the session completes at the safety
fire with transcript `[log "x"]` — no Error record at all. -/
theorem c2_counterexample :
    (runLoop 3 (startExecute scenPollLog 220)).emitted = [] ∧
    (runLoop 4 (startExecute scenPollLog 220)).emitted = [[⟨MsgType.log, "x"⟩]] ∧
    (ConsoleMessage.mk MsgType.log "x").type ≠ MsgType.error := by
  refine ⟨by decide, by decide, by decide⟩

/-- C2 amended: when the safety timer fires before the session otherwise
completes, every handle still in the pending set is forcibly cancelled (its
scheduled task removed, the set emptied) and the session immediately posts
the transcript exactly as it stands at that instant; no timeout Error record
is appended. -/
theorem c2_timeout_path (s : LoopState) :
    (runSafety s).pendingTimers = ∅ ∧
    (runSafety s).tasks = s.tasks.filter (fun t => t.id ∉ s.pendingTimers) ∧
    (runSafety s).logs = s.logs ∧
    (runSafety s).emitted = s.emitted ++ [s.logs] := by
  refine ⟨rfl, rfl, rfl, rfl⟩

/-- C6 counterexample: the claim says `console.log`, `console.error` and
`console.warn` stringify arguments the same way (objects via structured
serialization).  In the code only `console.log` uses `JSON.stringify`; the
error and warn shims coerce every argument with `String(...)`.  An object
that serializes to a JSON text therefore produces different contents. -/
theorem c6_counterexample :
    consoleLogOp [] [JSArg.obj (some "\x7b \"a\": 1 \x7d") "[object Object]"]
      = [⟨MsgType.log, "\x7b \"a\": 1 \x7d"⟩] ∧
    consoleErrorOp [] [JSArg.obj (some "\x7b \"a\": 1 \x7d") "[object Object]"]
      = [⟨MsgType.error, "[object Object]"⟩] ∧
    ("\x7b \"a\": 1 \x7d" : String) ≠ "[object Object]" := by
  refine ⟨by decide, by decide, by decide⟩

/-- C6 amended: each logging shim space-joins per-argument stringifications
into the content of one new record of the matching kind (below the capacity
guards), but the stringifiers differ: `console.log` renders thenables as
pending promises and other objects via `JSON.stringify` with `String(...)`
as fallback on serialization failure, while `console.error` and
`console.warn` coerce every argument, objects included, with `String(...)`
only. -/
theorem c6_stringify (l : List ConsoleMessage) (args : List JSArg)
    (h : l.length < MAX_LOGS) :
    consoleLogOp l args
      = l ++ [⟨.log, String.intercalate " " (args.map stringifyLogArg)⟩] ∧
    consoleErrorOp l args
      = l ++ [⟨.error, String.intercalate " " (args.map stringifyErrArg)⟩] ∧
    consoleWarnOp l args
      = l ++ [⟨.warn, String.intercalate " " (args.map stringifyErrArg)⟩] ∧
    (∀ s, stringifyLogArg (JSArg.prim s) = s ∧ stringifyErrArg (JSArg.prim s) = s) ∧
    (∀ j t, stringifyLogArg (JSArg.obj (some j) t) = j
          ∧ stringifyErrArg (JSArg.obj (some j) t) = t) ∧
    (∀ t, stringifyLogArg (JSArg.obj none t) = t
        ∧ stringifyErrArg (JSArg.obj none t) = t) := by
  refine ⟨?_, ?_, ?_, fun s => ⟨rfl, rfl⟩, fun j t => ⟨rfl, rfl⟩, fun t => ⟨rfl, rfl⟩⟩
  · rw [consoleLogOp_of_lt l args h]; rfl
  · exact consoleErrorOp_of_le l args (by omega)
  · exact consoleWarnOp_of_le l args (by omega)

/-- C6 witness. -/
theorem c6_stringify_witness :
    consoleLogOp [] [JSArg.obj none "[object Object]"]
      = [⟨MsgType.log, "[object Object]"⟩] := by
  have h := c6_stringify [] [JSArg.obj none "[object Object]"] (by decide)
  exact h.1.trans (by decide)

/-- C7: the dialog shims are deterministic.  `confirm(msg)` logs
`[confirm] msg (returned true)` and returns `true`; `prompt(msg, default)`
logs `[prompt] msg (returned "value")` where `value` is the given default
string (or `""` when none is given) and returns exactly that value. -/
theorem c7_dialogs (message : String) (dflt : Option String)
    (l : List ConsoleMessage) (h : l.length < MAX_LOGS) :
    (confirmShim l message).2 = true ∧
    (confirmShim l message).1
      = l ++ [⟨.log, "[confirm] " ++ message ++ " (returned true)"⟩] ∧
    (promptShim l message dflt).2 = dflt.getD "" ∧
    (promptShim l message dflt).1
      = l ++ [⟨.log, "[prompt] " ++ message ++ " (returned \""
                ++ dflt.getD "" ++ "\")"⟩] := by
  refine ⟨rfl, ?_, ?_, ?_⟩
  · show consoleLogOp l [.prim ("[confirm] " ++ message ++ " (returned true)")] = _
    rw [consoleLogOp_of_lt _ _ h]; rfl
  · cases dflt with
    | none => rfl
    | some v =>
        by_cases hv : v = ""
        · simp [promptShim, hv]
        · simp [promptShim, hv]
  · cases dflt with
    | none =>
        show consoleLogOp l
            [.prim ("[prompt] " ++ message ++ " (returned \"" ++ "" ++ "\")")] = _
        rw [consoleLogOp_of_lt _ _ h]; rfl
    | some v =>
        by_cases hv : v = ""
        · subst hv
          show consoleLogOp l
              [.prim ("[prompt] " ++ message ++ " (returned \"" ++ "" ++ "\")")] = _
          rw [consoleLogOp_of_lt _ _ h]; rfl
        · show consoleLogOp l
              [.prim ("[prompt] " ++ message ++ " (returned \""
                ++ (if v = "" then "" else v) ++ "\")")] = _
          rw [if_neg hv, consoleLogOp_of_lt _ _ h]
          rfl

/-- C7 witness. -/
theorem c7_dialogs_witness :
    (confirmShim [] "Continue?").2 = true ∧
    (promptShim [] "Name?" (some "Ada")).2 = (some "Ada").getD "" := by
  have h := c7_dialogs "Continue?" (some "Ada") [] (by decide)
  exact ⟨h.1, (c7_dialogs "Name?" (some "Ada") [] (by decide)).2.2.1⟩

/-- C8: the clear shims are idempotent total functions: clearing the same
handle twice (with either shim — they perform the same state change) leaves
the state of a single clear, the pending set ends as a single `erase`, and
clearing a handle that is not pending (already fired or never registered)
leaves the pending set unchanged. -/
theorem c8_clear_idempotent (s : LoopState) (id : ℕ) :
    clearTimeoutShim (clearTimeoutShim s id) id = clearTimeoutShim s id ∧
    clearIntervalShim (clearIntervalShim s id) id = clearIntervalShim s id ∧
    clearIntervalShim s id = clearTimeoutShim s id ∧
    (clearTimeoutShim s id).pendingTimers = s.pendingTimers.erase id ∧
    (id ∉ s.pendingTimers → (clearTimeoutShim s id).pendingTimers = s.pendingTimers) := by
  refine ⟨?_, ?_, rfl, rfl, ?_⟩
  · simp [clearTimeoutShim, removeTask_idem, Finset.erase_idem]
  · simp [clearIntervalShim, removeTask_idem, Finset.erase_idem]
  · intro hid
    simp [clearTimeoutShim, Finset.erase_eq_of_not_mem hid]

/-- C8 witness. -/
theorem c8_clear_idempotent_witness :
    (clearTimeoutShim (initState 100) 7).pendingTimers = (initState 100).pendingTimers := by
  exact (c8_clear_idempotent (initState 100) 7).2.2.2.2 (by decide)

theorem runStmt_pending_mono (st : Stmt) (s : LoopState) :
    s.pendingTimers ⊆ (runStmt st s).1.pendingTimers := by
  cases st with
  | log args => exact Finset.Subset.refl _
  | errorS args => exact Finset.Subset.refl _
  | warnS args => exact Finset.Subset.refl _
  | alertS m => exact Finset.Subset.refl _
  | setTimeoutS body delay => exact Finset.subset_insert _ _
  | setIntervalS body delay => exact Finset.subset_insert _ _
  | throwS m => exact Finset.Subset.refl _

theorem runStmts_pending_mono (stmts : List Stmt) : ∀ s : LoopState,
    s.pendingTimers ⊆ (runStmts stmts s).1.pendingTimers := by
  induction stmts with
  | nil => intro s; exact Finset.Subset.refl _
  | cons st rest ih =>
      intro s
      have h1 := runStmt_pending_mono st s
      rcases hst : runStmt st s with ⟨s', e⟩
      rw [hst] at h1
      cases e with
      | none =>
          have hred : runStmts (st :: rest) s = runStmts rest s' := by
            show (match runStmt st s with
                  | (s', none) => runStmts rest s'
                  | (s', some e) => (s', some e)) = _
            rw [hst]
          rw [hred]
          exact h1.trans (ih s')
      | some msg =>
          have hred : runStmts (st :: rest) s = (s', some msg) := by
            show (match runStmt st s with
                  | (s', none) => runStmts rest s'
                  | (s', some e) => (s', some e)) = _
            rw [hst]
          rw [hred]
          exact h1

theorem runStmt_emitted (st : Stmt) (s : LoopState) :
    (runStmt st s).1.emitted = s.emitted := by
  cases st <;> rfl

theorem runStmts_emitted (stmts : List Stmt) : ∀ s : LoopState,
    (runStmts stmts s).1.emitted = s.emitted := by
  induction stmts with
  | nil => intro s; rfl
  | cons st rest ih =>
      intro s
      have h1 := runStmt_emitted st s
      rcases hst : runStmt st s with ⟨s', e⟩
      rw [hst] at h1
      cases e with
      | none =>
          have hred : runStmts (st :: rest) s = runStmts rest s' := by
            show (match runStmt st s with
                  | (s', none) => runStmts rest s'
                  | (s', some e) => (s', some e)) = _
            rw [hst]
          rw [hred, ih s', h1]
      | some msg =>
          have hred : runStmts (st :: rest) s = (s', some msg) := by
            show (match runStmt st s with
                  | (s', none) => runStmts rest s'
                  | (s', some e) => (s', some e)) = _
            rw [hst]
          rw [hred]
          exact h1

theorem runLoop_no_tasks (s : LoopState) (h : s.tasks = []) :
    ∀ n, runLoop n s = s := by
  have hstep : stepLoop s = s := by
    unfold stepLoop
    rw [h]
    rfl
  intro n
  induction n with
  | zero => rfl
  | succ n ih =>
      show runLoop n (stepLoop s) = s
      rw [hstep]
      exact ih

theorem consoleLogOp_append_only (l : List ConsoleMessage) (args : List JSArg) :
    ∃ t, consoleLogOp l args = l ++ t := by
  unfold consoleLogOp
  split
  · split
    · exact ⟨[⟨.warn, logLimitMsg⟩], rfl⟩
    · exact ⟨[], (List.append_nil l).symm⟩
  · exact ⟨[⟨.log, String.intercalate " " (args.map stringifyLogArg)⟩], rfl⟩

theorem consoleErrorOp_append_only (l : List ConsoleMessage) (args : List JSArg) :
    ∃ t, consoleErrorOp l args = l ++ t := by
  unfold consoleErrorOp
  split
  · exact ⟨[], (List.append_nil l).symm⟩
  · exact ⟨[⟨.error, String.intercalate " " (args.map stringifyErrArg)⟩], rfl⟩

theorem consoleWarnOp_append_only (l : List ConsoleMessage) (args : List JSArg) :
    ∃ t, consoleWarnOp l args = l ++ t := by
  unfold consoleWarnOp
  split
  · exact ⟨[], (List.append_nil l).symm⟩
  · exact ⟨[⟨.warn, String.intercalate " " (args.map stringifyErrArg)⟩], rfl⟩

theorem runStmt_append_only (st : Stmt) (s : LoopState) :
    ∃ t, (runStmt st s).1.logs = s.logs ++ t := by
  cases st with
  | log args => exact consoleLogOp_append_only s.logs args
  | errorS args => exact consoleErrorOp_append_only s.logs args
  | warnS args => exact consoleWarnOp_append_only s.logs args
  | alertS m => exact consoleLogOp_append_only s.logs _
  | setTimeoutS body delay => exact ⟨[], (List.append_nil _).symm⟩
  | setIntervalS body delay => exact ⟨[], (List.append_nil _).symm⟩
  | throwS m => exact ⟨[], (List.append_nil _).symm⟩

theorem runStmts_append_only (stmts : List Stmt) : ∀ s : LoopState,
    ∃ t, (runStmts stmts s).1.logs = s.logs ++ t := by
  induction stmts with
  | nil => intro s; exact ⟨[], (List.append_nil _).symm⟩
  | cons st rest ih =>
      intro s
      obtain ⟨t1, h1⟩ := runStmt_append_only st s
      rcases hst : runStmt st s with ⟨s', e⟩
      rw [hst] at h1
      cases e with
      | none =>
          have hred : runStmts (st :: rest) s = runStmts rest s' := by
            show (match runStmt st s with
                  | (s', none) => runStmts rest s'
                  | (s', some e) => (s', some e)) = _
            rw [hst]
          obtain ⟨t2, h2⟩ := ih s'
          exact ⟨t1 ++ t2, by rw [hred, h2, h1, List.append_assoc]⟩
      | some msg =>
          have hred : runStmts (st :: rest) s = (s', some msg) := by
            show (match runStmt st s with
                  | (s', none) => runStmts rest s'
                  | (s', some e) => (s', some e)) = _
            rw [hst]
          exact ⟨t1, by rw [hred]; exact h1⟩

theorem runTask_append_only (t : STask) (s : LoopState) :
    ∃ u, (runTask t s).logs = s.logs ++ u := by
  cases hact : t.act with
  | userTimeout body =>
      obtain ⟨u, hu⟩ := runStmts_append_only body s
      rcases hb : runStmts body s with ⟨sb, eb⟩
      rw [hb] at hu
      exact ⟨u, by simp [runTask, hact, fireUserTimeout, hb]; exact hu⟩
  | userInterval body period =>
      obtain ⟨u, hu⟩ := runStmts_append_only body s
      rcases hb : runStmts body s with ⟨sb, eb⟩
      rw [hb] at hu
      exact ⟨u, by simp [runTask, hact, fireUserInterval, hb]; exact hu⟩
  | safety => exact ⟨[], by simp [runTask, hact, runSafety, sendResults, List.append_nil]⟩
  | grace =>
      refine ⟨[], ?_⟩
      simp only [runTask, hact, runGrace]
      split <;> simp [sendResults, List.append_nil]
  | check =>
      refine ⟨[], ?_⟩
      simp only [runTask, hact, runCheck]
      split <;> simp [sendResults, List.append_nil]

theorem stepLoop_append_only (s : LoopState) :
    ∃ u, (stepLoop s).logs = s.logs ++ u := by
  unfold stepLoop
  rcases hp : pickMin s.tasks with _ | t
  · exact ⟨[], (List.append_nil _).symm⟩
  · exact runTask_append_only t _

theorem iterLogFrom_add (f : ℕ → List JSArg) (m n : ℕ) : ∀ (i : ℕ) (l : List ConsoleMessage),
    iterLogFrom f i (m + n) l = iterLogFrom f (i + m) n (iterLogFrom f i m l) := by
  induction m with
  | zero => intro i l; simp [iterLogFrom]
  | succ m ih =>
      intro i l
      have hrw : m + 1 + n = (m + n) + 1 := by omega
      rw [hrw]
      show iterLogFrom f (i + 1) (m + n) (consoleLogOp l (f i))
        = iterLogFrom f (i + (m + 1)) n (iterLogFrom f (i + 1) m (consoleLogOp l (f i)))
      rw [ih (i + 1) (consoleLogOp l (f i))]
      have : i + 1 + m = i + (m + 1) := by omega
      rw [this]

theorem iterLogFrom_below (f : ℕ → List JSArg) :
    ∀ (n i : ℕ) (l : List ConsoleMessage), l.length + n ≤ MAX_LOGS →
      iterLogFrom f i n l = l ++ (List.range n).map (fun k => mkLogRec (f (i + k))) := by
  intro n
  induction n with
  | zero => intro i l h; simp [iterLogFrom]
  | succ n ih =>
      intro i l h
      have hlt : l.length < MAX_LOGS := by omega
      show iterLogFrom f (i + 1) n (consoleLogOp l (f i)) = _
      rw [consoleLogOp_of_lt _ _ hlt,
          ih (i + 1) _ (by simp only [List.length_append, List.length_cons,
            List.length_nil]; omega)]
      rw [List.range_succ_eq_map]
      have hfun : ((fun k => mkLogRec (f (i + k))) ∘ Nat.succ)
          = (fun k => mkLogRec (f (i + 1 + k))) := by
        funext k
        have hk : i + Nat.succ k = i + 1 + k := by omega
        show mkLogRec (f (i + Nat.succ k)) = mkLogRec (f (i + 1 + k))
        rw [hk]
      simp only [List.map_cons, List.map_map, hfun, Nat.add_zero, List.append_assoc,
        List.cons_append, List.nil_append]

theorem iterLogFrom_stable (f : ℕ → List JSArg) :
    ∀ (n i : ℕ) (l : List ConsoleMessage), MAX_LOGS < l.length →
      iterLogFrom f i n l = l := by
  intro n
  induction n with
  | zero => intro i l _; rfl
  | succ n ih =>
      intro i l h
      show iterLogFrom f (i + 1) n (consoleLogOp l (f i)) = l
      rw [consoleLogOp_of_gt _ _ h]
      exact ih (i + 1) l h

theorem applyCall_length_le (l : List ConsoleMessage) (c : ConsoleCall)
    (h : l.length ≤ MAX_LOGS + 1) : (applyCall l c).length ≤ MAX_LOGS + 1 := by
  cases c with
  | logC args =>
      show (consoleLogOp l args).length ≤ MAX_LOGS + 1
      unfold consoleLogOp
      split
      · split
        · simp only [List.length_append, List.length_cons, List.length_nil]; omega
        · omega
      · simp only [List.length_append, List.length_cons, List.length_nil]; omega
  | errorC args =>
      show (consoleErrorOp l args).length ≤ MAX_LOGS + 1
      unfold consoleErrorOp
      split
      · omega
      · simp only [List.length_append, List.length_cons, List.length_nil]; omega
  | warnC args =>
      show (consoleWarnOp l args).length ≤ MAX_LOGS + 1
      unfold consoleWarnOp
      split
      · omega
      · simp only [List.length_append, List.length_cons, List.length_nil]; omega

theorem applyCalls_length_le (cs : List ConsoleCall) : ∀ l : List ConsoleMessage,
    l.length ≤ MAX_LOGS + 1 → (applyCalls l cs).length ≤ MAX_LOGS + 1 := by
  induction cs with
  | nil => intro l h; exact h
  | cons c cs ih =>
      intro l h
      show (List.foldl applyCall (applyCall l c) cs).length ≤ MAX_LOGS + 1
      exact ih _ (applyCall_length_le l c h)

theorem applyCalls_replicate_log (a : List JSArg) :
    ∀ (n : ℕ) (l : List ConsoleMessage), l.length + n ≤ MAX_LOGS →
      applyCalls l (List.replicate n (.logC a)) = l ++ List.replicate n (mkLogRec a) := by
  intro n
  induction n with
  | zero => intro l h; simp [applyCalls]
  | succ n ih =>
      intro l h
      rw [List.replicate_succ]
      show applyCalls (applyCall l (.logC a)) (List.replicate n (.logC a)) = _
      have hstep : applyCall l (.logC a) = l ++ [mkLogRec a] :=
        consoleLogOp_of_lt l a (by omega)
      rw [hstep, ih _ (by simp only [List.length_append, List.length_cons,
        List.length_nil]; omega)]
      simp [List.replicate_succ, List.append_assoc]

theorem applyCalls_overflow : applyCalls [] overflowCalls = overflowTranscript := by
  unfold overflowCalls overflowTranscript applyCalls
  rw [List.foldl_append]
  have h := applyCalls_replicate_log [.prim "x"] MAX_LOGS []
    (by simp only [List.length_nil]; omega)
  unfold applyCalls at h
  rw [h]
  have hrec : mkLogRec [JSArg.prim "x"] = ⟨.log, "x"⟩ := rfl
  simp only [hrec, List.nil_append]
  have hfold : ∀ l : List ConsoleMessage,
      List.foldl applyCall l [ConsoleCall.errorC [.prim "y"]]
        = consoleErrorOp l [.prim "y"] := fun _ => rfl
  rw [hfold, consoleErrorOp_of_le _ _ (by simp)]
  have htail : String.intercalate " " (List.map stringifyErrArg [JSArg.prim "y"])
      = "y" := rfl
  rw [htail]

/-- C3: 2000 `console.log` calls against capacity `MAX_LOGS = 1000` produce
exactly the first 1000 ordinary Log records followed by the single Warn
sentinel; the contents of calls 1001–2000 are absent, and once the sentinel
is there every further `console.log` call leaves the transcript unchanged. -/
theorem c3_overflow (f : ℕ → List JSArg) :
    iterLogFrom f 0 2000 []
      = (List.range MAX_LOGS).map (fun k => mkLogRec (f k)) ++ [⟨.warn, logLimitMsg⟩] ∧
    ∀ args, consoleLogOp (iterLogFrom f 0 2000 []) args = iterLogFrom f 0 2000 [] := by
  have h1 : iterLogFrom f 0 1000 ([] : List ConsoleMessage)
      = (List.range 1000).map (fun k => mkLogRec (f k)) := by
    have := iterLogFrom_below f 1000 0 [] (by simp [MAX_LOGS])
    simpa using this
  have hlen : ((List.range 1000).map (fun k => mkLogRec (f k))).length = 1000 := by simp
  have h2 : iterLogFrom f 0 2000 ([] : List ConsoleMessage)
      = iterLogFrom f 1000 1000 (iterLogFrom f 0 1000 []) := by
    have := iterLogFrom_add f 1000 1000 0 ([] : List ConsoleMessage)
    simpa using this
  have h3 : iterLogFrom f 1000 1000 ((List.range 1000).map (fun k => mkLogRec (f k)))
      = (List.range 1000).map (fun k => mkLogRec (f k)) ++ [⟨.warn, logLimitMsg⟩] := by
    have hone : iterLogFrom f 1000 1 ((List.range 1000).map (fun k => mkLogRec (f k)))
        = (List.range 1000).map (fun k => mkLogRec (f k)) ++ [⟨.warn, logLimitMsg⟩] := by
      show consoleLogOp ((List.range 1000).map (fun k => mkLogRec (f k))) (f 1000) = _
      exact consoleLogOp_of_eq _ _ (by rw [hlen]; rfl)
    have hsplit := iterLogFrom_add f 1 999 1000
      ((List.range 1000).map (fun k => mkLogRec (f k)))
    have : (1 : ℕ) + 999 = 1000 := by omega
    rw [this] at hsplit
    rw [hsplit, hone]
    exact iterLogFrom_stable f 999 (1000 + 1) _
      (by simp only [List.length_append, hlen, List.length_cons, List.length_nil]
          decide)
  have hfull : iterLogFrom f 0 2000 ([] : List ConsoleMessage)
      = (List.range MAX_LOGS).map (fun k => mkLogRec (f k)) ++ [⟨.warn, logLimitMsg⟩] := by
    rw [h2, h1, h3]
    rfl
  refine ⟨hfull, fun args => ?_⟩
  rw [hfull]
  exact consoleLogOp_of_gt _ _
    (by simp only [List.length_append, List.length_map, List.length_range,
          List.length_cons, List.length_nil]
        show MAX_LOGS < MAX_LOGS + 1
        omega)

/-- C4: an evaluation failure — a syntax error (the `new Function` call
throws) or a throw/rejection of the top-level async body — is caught at the
invocation boundary: exactly one Error record carrying the failure is
appended, the safety timer's task is cancelled, and the session posts its
single `complete` message immediately.  For a pure syntax error the
transcript is exactly one Error record and the loop has nothing left to run
(no timeout wait). -/
theorem c4_eval_failure (msg : String) (timeoutMs : ℕ) (stmts : List Stmt)
    (s' : LoopState) (e : String)
    (hrun : runStmts stmts (initState timeoutMs) = (s', some e)) :
    (startExecute (.parseError msg) timeoutMs).emitted = [[⟨.error, msg⟩]] ∧
    (startExecute (.parseError msg) timeoutMs).tasks = [] ∧
    (∀ n, runLoop n (startExecute (.parseError msg) timeoutMs)
        = startExecute (.parseError msg) timeoutMs) ∧
    (startExecute (.body stmts) timeoutMs).emitted = [s'.logs ++ [⟨.error, e⟩]] ∧
    (startExecute (.body stmts) timeoutMs).tasks = removeTask s'.tasks s'.safetyId := by
  have hemit : s'.emitted = [] := by
    have h := runStmts_emitted stmts (initState timeoutMs)
    rw [hrun] at h
    exact h
  have hred : startExecute (.body stmts) timeoutMs
      = sendResults
          { s' with
              tasks := removeTask s'.tasks s'.safetyId,
              logs := s'.logs ++ [⟨.error, e⟩] } := by
    have hmatch : startExecute (.body stmts) timeoutMs
        = match runStmts stmts (initState timeoutMs) with
          | (s2, none) =>
              { s2 with
                  tasks := s2.tasks ++ [⟨s2.nextId, s2.now + 100, TaskAct.grace⟩],
                  nextId := s2.nextId + 1 }
          | (s2, some m) =>
              sendResults
                { s2 with
                    tasks := removeTask s2.tasks s2.safetyId,
                    logs := s2.logs ++ [⟨.error, m⟩] } := rfl
    rw [hmatch, hrun]
  refine ⟨rfl, rfl, ?_, ?_, ?_⟩
  · exact runLoop_no_tasks _ rfl
  · rw [hred]
    show s'.emitted ++ [s'.logs ++ [⟨.error, e⟩]] = _
    rw [hemit]
    rfl
  · rw [hred]
    rfl

/-- C4 witness. -/
theorem c4_eval_failure_witness :
    (startExecute (.parseError "SyntaxError: Unexpected token") 5000).emitted
      = [[⟨MsgType.error, "SyntaxError: Unexpected token"⟩]] ∧
    (startExecute (.body [Stmt.throwS "boom"]) 5000).emitted
      = [(initState 5000).logs ++ [⟨MsgType.error, "boom"⟩]] :=
  ⟨(c4_eval_failure "SyntaxError: Unexpected token" 5000 [Stmt.throwS "boom"]
      (initState 5000) "boom" rfl).1,
   (c4_eval_failure "SyntaxError: Unexpected token" 5000 [Stmt.throwS "boom"]
      (initState 5000) "boom" rfl).2.2.2.1⟩

/-- C5: the transcript is append-only — every event-loop step extends it on
the right, so records sit in the exact order their producing calls executed —
and the concrete scenario (log `"a"`, schedule a zero-delay timer logging
`"b"`, log `"c"`) yields the single transcript `["a", "c", "b"]`: the
zero-delay callback fires only after the registering synchronous code has run
to completion. -/
theorem c5_transcript_order :
    (∀ s : LoopState, ∃ t, (stepLoop s).logs = s.logs ++ t) ∧
    (runLoop 3 (startExecute scenOrder 5000)).emitted
      = [[⟨MsgType.log, "a"⟩, ⟨MsgType.log, "c"⟩, ⟨MsgType.log, "b"⟩]] ∧
    (runLoop 3 (startExecute scenOrder 5000)).tasks = [] := by
  exact ⟨stepLoop_append_only, by decide, rfl⟩

/-- C9: the `setTimeout` shim schedules the real timer and puts its handle in
the pending set at registration; when the timer fires, the wrapped callback
removes the handle even if the user callback throws (the `finally` branch).
The `setInterval` shim also registers its handle, but an interval firing
never removes it — only an explicit clear does. -/
theorem c9_pending_tracking (idv : ℕ) (body : List Stmt) (delay period due : ℕ)
    (s : LoopState) (msg : String) (rest : List Stmt) :
    (runStmt (.setTimeoutS body delay) s).1.pendingTimers
      = insert s.nextId s.pendingTimers ∧
    (runStmt (.setTimeoutS body delay) s).1.tasks
      = s.tasks ++ [⟨s.nextId, s.now + delay, .userTimeout body⟩] ∧
    (fireUserTimeout idv body s).1.pendingTimers
      = ((runStmts body s).1.pendingTimers).erase idv ∧
    fireUserTimeout idv (Stmt.throwS msg :: rest) s
      = ({ s with pendingTimers := s.pendingTimers.erase idv }, some msg) ∧
    (runStmt (.setIntervalS body delay) s).1.pendingTimers
      = insert s.nextId s.pendingTimers ∧
    (fireUserInterval idv body period due s).1.pendingTimers
      = (runStmts body s).1.pendingTimers ∧
    (idv ∈ s.pendingTimers →
      idv ∈ (fireUserInterval idv body period due s).1.pendingTimers) := by
  have hfi : (fireUserInterval idv body period due s).1.pendingTimers
      = (runStmts body s).1.pendingTimers := by
    rcases hb : runStmts body s with ⟨sb, eb⟩
    simp [fireUserInterval, hb]
  refine ⟨rfl, rfl, ?_, rfl, rfl, hfi, ?_⟩
  · rcases hb : runStmts body s with ⟨sb, eb⟩
    simp [fireUserTimeout, hb]
  · intro hmem
    rw [hfi]
    exact runStmts_pending_mono body s hmem

/-- C9 witness. -/
theorem c9_pending_tracking_witness :
    3 ∈ (fireUserInterval 3 [Stmt.log [JSArg.prim "b"]] 50 0
          { initState 100 with pendingTimers := {3} }).1.pendingTimers := by
  exact (c9_pending_tracking 3 [Stmt.log [JSArg.prim "b"]] 0 50 0
    { initState 100 with pendingTimers := {3} } "oops" []).2.2.2.2.2.2 (by decide)

/-- C10: across any sequence of `console.log` / `console.error` /
`console.warn` calls starting from an empty buffer the transcript never
exceeds `MAX_LOGS + 1 = 1001` records; position 1001 can be an Error (or
Warn) record appended by the error/warn shims while the buffer held exactly
1000 records, and in that case the overflow sentinel is never appended —
further `console.log` calls leave the transcript unchanged. -/
theorem c10_capacity (cs : List ConsoleCall) (args : List JSArg) :
    (applyCalls [] cs).length ≤ MAX_LOGS + 1 ∧
    applyCalls [] overflowCalls = overflowTranscript ∧
    overflowTranscript.length = MAX_LOGS + 1 ∧
    overflowTranscript[MAX_LOGS]? = some ⟨MsgType.error, "y"⟩ ∧
    consoleLogOp overflowTranscript args = overflowTranscript ∧
    ConsoleMessage.mk MsgType.warn logLimitMsg ∉ overflowTranscript := by
  refine ⟨applyCalls_length_le cs [] (by simp), applyCalls_overflow, ?_, ?_, ?_, ?_⟩
  · simp [overflowTranscript]
  · rw [overflowTranscript, List.getElem?_append_right (by simp)]
    simp
  · exact consoleLogOp_of_gt _ _
      (by simp only [overflowTranscript, List.length_append, List.length_replicate,
            List.length_cons, List.length_nil]
          omega)
  · rw [overflowTranscript]
    intro hmem
    rcases List.mem_append.mp hmem with hmem | hmem
    · have := (List.eq_of_mem_replicate hmem)
      exact absurd (congrArg ConsoleMessage.type this) (by decide)
    · simp only [List.mem_cons, List.not_mem_nil, or_false] at hmem
      exact absurd (congrArg ConsoleMessage.type hmem) (by decide)

end JSPad
